import Mathlib

/-!
Verification of the mongoose-zod schema builder compiler core.

The definitions below are a shallow embedding of the JavaScript source:
`createMongooseSchema` (persistence field compiler), `createZodSchema`
(validation field compiler), `normalizeZodErrors` (error normalizer) and
`createSchemas` / `generateCacheKey` (compilation cache entry point).

Modelling conventions, stated once:
* JavaScript values are embedded as `JSValue`; numbers are `Int` (every
  numeric literal exercised by the claims is integral), functions are the
  opaque `jfunc`, and `Date` objects are `jdate`.
* A field definition object is an ordered association of known modifier
  keys (`FProp`); JavaScript object-key iteration order is the list order
  and keys are unique in an actual JS object (theorems that need this
  assume `propsKeysNodup`).
* Regular expressions are embedded as `Pat`: the two fixed patterns the
  compiler synthesizes (`passwordDefault`, `hex24`) carry their exact
  matching semantics, transcribed from the literal regexes in the source;
  a caller-supplied pattern is `fromSource` and its matching semantics is
  not modelled (no claim depends on it).
* Diagnostic message strings are not modelled; claims concern acceptance
  behaviour and structure of the compiled rules.
* The source queries zod internals with `_def.type === 'string'` and, in
  one place, `_def.typeName === 'ZodString'`; which of the two exists
  depends on the zod major version, which the repository does not pin.
  Both are embedded as `isStringRule`: "the current rule is a string
  schema", the reading under which neither check is dead code and which
  matches how the rest of the file uses them.
-/

/-- Embedded JavaScript runtime values. -/
inductive JSValue where
  | jnull
  | jundefined
  | jbool (b : Bool)
  | jnum (n : Int)
  | jstr (s : String)
  | jdate (t : Int)
  | jfunc
  | jarr (xs : List JSValue)
  | jobj (fields : List (String × JSValue))
deriving Repr

/-- JavaScript truthiness: `null`, `undefined`, `false`, `0` and `""` are
falsy, everything else (including empty arrays and objects) is truthy. -/
def jsTruthy : JSValue → Bool
  | .jnull => false
  | .jundefined => false
  | .jbool b => b
  | .jnum n => n != 0
  | .jstr s => s ≠ ""
  | _ => true

/-- JavaScript `a || b`. -/
def jsOr (a b : JSValue) : JSValue := if jsTruthy a then a else b

/-- Property lookup inside an object's own entries; absent keys read as
`undefined` (JS object keys are unique, so first match suffices). -/
def objGet : List (String × JSValue) → String → JSValue
  | [], _ => .jundefined
  | (k, v) :: rest, key => if k = key then v else objGet rest key

/-- Character class `[a-z]` of the source regexes. -/
def isAsciiLower (c : Char) : Bool := 'a' ≤ c && c ≤ 'z'

/-- Character class `[A-Z]` of the source regexes. -/
def isAsciiUpper (c : Char) : Bool := 'A' ≤ c && c ≤ 'Z'

/-- Character class `\d` of the source regexes. -/
def isAsciiDigit (c : Char) : Bool := '0' ≤ c && c ≤ '9'

/-- The fixed symbol set `[@$!%*?&#]` of the synthesized password regex. -/
def pwSymbols : List Char := ['@', '$', '!', '%', '*', '?', '&', '#']

/-- Character class `[A-Za-z\d@$!%*?&#]` of the synthesized password regex. -/
def isPwChar (c : Char) : Bool :=
  isAsciiLower c || isAsciiUpper c || isAsciiDigit c || pwSymbols.contains c

/-- Matching semantics of the literal source regex
`/^(?=.*[a-z])(?=.*[A-Z])(?=.*\d)(?=.*[@$!%*?&#])[A-Za-z\d@$!%*?&#]{8,}$/`:
at least one lowercase, one uppercase, one digit and one listed symbol,
all characters drawn from the allowed class, length at least 8. -/
def passwordPatTest (s : String) : Bool :=
  s.data.any isAsciiLower && s.data.any isAsciiUpper &&
  s.data.any isAsciiDigit && s.data.any (fun c => pwSymbols.contains c) &&
  s.data.all isPwChar && decide (8 ≤ s.data.length)

/-- Character class `[0-9a-fA-F]`. -/
def isHexChar (c : Char) : Bool :=
  isAsciiDigit c || ('a' ≤ c && c ≤ 'f') || ('A' ≤ c && c ≤ 'F')

/-- Matching semantics of the literal source regex `/^[0-9a-fA-F]{24}$/`. -/
def hex24PatTest (s : String) : Bool :=
  s.data.all isHexChar && decide (s.data.length = 24)

/-- Embedded regular-expression objects.  The two patterns the compiler
synthesizes itself carry exact semantics; `emailMongoose` is the literal
email regex of the persistence compiler and `fromSource` a pattern compiled
from caller input — their matching behaviour is outside every claim and is
not modelled. -/
inductive Pat where
  | passwordDefault
  | hex24
  | emailMongoose
  | fromSource (src : String)
deriving Repr, DecidableEq

/-- `RegExp.prototype.test` for the embedded patterns.  Caller-supplied
patterns (`fromSource`) and the persistence-side email pattern never have
their acceptance examined by a claim; they are conservatively `false`. -/
def patTest : Pat → String → Bool
  | .passwordDefault, s => passwordPatTest s
  | .hex24, s => hex24PatTest s
  | _, _ => false

/-- A `regex`/`match` modifier value: a compiled pattern object or a
pattern-source string (the source feeds the latter to `new RegExp`). -/
inductive PatVal where
  | reP (p : Pat)
  | strP (src : String)
deriving Repr, DecidableEq

/-- `propValue instanceof RegExp ? propValue : new RegExp(propValue)`. -/
def patOfVal : PatVal → Pat
  | .reP p => p
  | .strP s => .fromSource s

/-- A raw `type` token: one of the JavaScript primitive constructors the
source switches on, a mongoose schema-type constant (these occur as
resolution outputs and may be fed back in), a string alias, or the absent
property (`undefined`). -/
inductive TypeTok where
  | ctorString
  | ctorNumber
  | ctorBoolean
  | ctorDate
  | ctorArray
  | ctorObject
  | ctorMap
  | mongooseObjectId
  | mongooseMixed
  | strTok (s : String)
  | undefTok
deriving Repr, DecidableEq

/-- ASCII lowercasing of one character (`String.prototype.toLowerCase`
on the character range the claims exercise). -/
def lowerChar (c : Char) : Char :=
  if 'A' ≤ c && c ≤ 'Z' then Char.ofNat (c.toNat + 32) else c

/-- `s.toLowerCase()` (ASCII). -/
def jsToLower (s : String) : String := ⟨s.data.map lowerChar⟩

/-- `typeof tok === 'string' ? tok.toLowerCase() : ''`. -/
def lowerOfTok : TypeTok → String
  | .strTok s => jsToLower s
  | _ => ""

mutual
/-- One optional modifier entry of a FieldSpec, keyed as in the source
(`minLengthAltP`/`maxLengthAltP` are the `minLength`/`maxLength` spellings). -/
inductive FProp where
  | requiredP (b : Bool)
  | uniqueP (v : JSValue)
  | minlengthP (n : Nat)
  | minLengthAltP (n : Nat)
  | maxlengthP (n : Nat)
  | maxLengthAltP (n : Nat)
  | minP (n : Int)
  | maxP (n : Int)
  | defaultP (v : JSValue)
  | refP (model : String)
  | itemsP (ty : TypeTok) (ref : Option String)
  | emailP (b : Bool)
  | enumP (vs : List String)
  | regexP (pv : PatVal)
  | matchP (pv : PatVal)
  | schemaP (d : List (String × FieldEntry))
  | selectP (v : JSValue)
  | sparseP (v : JSValue)
  | indexP (v : JSValue)
  | textP (v : JSValue)
  | immutableP (v : JSValue)
  | transformP (v : JSValue)
  | getP (v : JSValue)
  | setP (v : JSValue)

/-- One entry of a schema definition: the record form `{type, ...modifiers}`
or the array-shorthand form (the FieldSpec is itself an array; only the
head element's `type` and `enum` are read by the source). -/
inductive FieldEntry where
  | objForm (ty : TypeTok) (props : List FProp)
  | arrForm (elems : List ArrHead)

/-- Head element of an array-shorthand FieldSpec. -/
inductive ArrHead where
  | mk (ty : TypeTok) (enumN : Option (List String))
end

/-- The JavaScript property key a modifier entry is stored under. -/
def propKey : FProp → String
  | .requiredP _ => "required"
  | .uniqueP _ => "unique"
  | .minlengthP _ => "minlength"
  | .minLengthAltP _ => "minLength"
  | .maxlengthP _ => "maxlength"
  | .maxLengthAltP _ => "maxLength"
  | .minP _ => "min"
  | .maxP _ => "max"
  | .defaultP _ => "default"
  | .refP _ => "ref"
  | .itemsP _ _ => "items"
  | .emailP _ => "email"
  | .enumP _ => "enum"
  | .regexP _ => "regex"
  | .matchP _ => "match"
  | .schemaP _ => "schema"
  | .selectP _ => "select"
  | .sparseP _ => "sparse"
  | .indexP _ => "index"
  | .textP _ => "text"
  | .immutableP _ => "immutable"
  | .transformP _ => "transform"
  | .getP _ => "get"
  | .setP _ => "set"

/-- A JS object has unique property keys; theorems that depend on key
uniqueness assume it through this predicate. -/
abbrev propsKeysNodup (props : List FProp) : Prop := (props.map propKey).Nodup

/-- `fieldProps.required`. -/
def lookupRequired : List FProp → Option Bool
  | [] => none
  | .requiredP b :: _ => some b
  | _ :: rest => lookupRequired rest

/-- `fieldProps.default`. -/
def lookupDefault : List FProp → Option JSValue
  | [] => none
  | .defaultP v :: _ => some v
  | _ :: rest => lookupDefault rest

/-- `fieldProps.regex` — the `regex` key only; a `match` entry is a
different property and does not show up here. -/
def lookupRegex : List FProp → Option PatVal
  | [] => none
  | .regexP pv :: _ => some pv
  | _ :: rest => lookupRegex rest

/-- `fieldProps.enum`. -/
def lookupEnum : List FProp → Option (List String)
  | [] => none
  | .enumP vs :: _ => some vs
  | _ :: rest => lookupEnum rest

/-- `fieldProps.items`. -/
def lookupItems : List FProp → Option (TypeTok × Option String)
  | [] => none
  | .itemsP t r :: _ => some (t, r)
  | _ :: rest => lookupItems rest

/-- `fieldProps.schema`. -/
def lookupSchema : List FProp → Option (List (String × FieldEntry))
  | [] => none
  | .schemaP d :: _ => some d
  | _ :: rest => lookupSchema rest

/-- `needle` occurs as a contiguous run inside `hay`. -/
def listStartsWith : List Char → List Char → Bool
  | _, [] => true
  | [], _ :: _ => false
  | h :: hs, n :: ns => h = n && listStartsWith hs ns

/-- `hay.includes(needle)` over character lists. -/
def listContainsSub : List Char → List Char → Bool
  | hay, needle =>
    if listStartsWith hay needle then true
    else match hay with
      | [] => false
      | _ :: rest => listContainsSub rest needle

/-- `fieldName.toLowerCase().includes('password')`. -/
def containsPassword (name : String) : Bool :=
  listContainsSub (jsToLower name).data "password".data

/-- A chained check on a `z.string()` schema, in application order:
`.min`, `.max`, `.length`, `.email`, `.regex`, the `.toLowerCase()`
overwrite transform, and the membership `.refine` the enum path installs
(its closure checks `lowerCaseEnum.includes(val)` for the captured
case-folded list). -/
inductive StrCheck where
  | minLen (n : Nat)
  | maxLen (n : Nat)
  | lenEq (n : Nat)
  | emailCheck
  | regexCheck (p : Pat)
  | toLowerC
  | refineLowerMem (allowed : List String)
deriving Repr, DecidableEq

/-- A chained check on a `z.number()` schema. -/
inductive NumCheck where
  | minNum (n : Int)
  | maxNum (n : Int)
deriving Repr, DecidableEq

/-- A chained check on a `z.array(...)` schema. -/
inductive ArrCheck where
  | minItems (n : Int)
  | maxItems (n : Int)
deriving Repr, DecidableEq

/-- The zod validator tree the validation compiler assembles, one
constructor per combinator the source uses. -/
inductive ZodRule where
  | strR (checks : List StrCheck)
  | numR (checks : List NumCheck)
  | boolR
  | dateR
  | arrR (item : ZodRule) (checks : List ArrCheck)
  | objPassthrough
  | objCatchallString
  | anyR
  | objSchema (fields : List (String × ZodRule))
  | optR (r : ZodRule)
  | withDefault (r : ZodRule) (v : JSValue)
deriving Repr

/-- `zodValidator._def.type === 'string'` (and the one `_def.typeName ===
'ZodString'` occurrence): the current rule is a string schema.  Wrappers
(`optional`, `default`) and every non-string base answer `false`. -/
def isStringRule : ZodRule → Bool
  | .strR _ => true
  | _ => false

/-- Append one more chained check to a string schema (identity on
anything else; every call site guards with `isStringRule`). -/
def appendStrCheck (r : ZodRule) (c : StrCheck) : ZodRule :=
  match r with
  | .strR checks => .strR (checks ++ [c])
  | r => r

/-- Stand-in for the validation engine's built-in email format check
(`z.string().email()`); no claim depends on its exact acceptance. -/
def zodEmailTest (s : String) : Bool := s.data.contains '@'

/-- Run the chained string checks in order; `.toLowerCase()` overwrites
the value seen by every later check. -/
def strChecksRun : List StrCheck → String → Bool
  | [], _ => true
  | .minLen n :: rest, s => decide (n ≤ s.length) && strChecksRun rest s
  | .maxLen n :: rest, s => decide (s.length ≤ n) && strChecksRun rest s
  | .lenEq n :: rest, s => decide (s.length = n) && strChecksRun rest s
  | .emailCheck :: rest, s => zodEmailTest s && strChecksRun rest s
  | .regexCheck p :: rest, s => patTest p s && strChecksRun rest s
  | .toLowerC :: rest, s => strChecksRun rest (jsToLower s)
  | .refineLowerMem allowed :: rest, s => allowed.contains s && strChecksRun rest s

/-- Run the chained number checks. -/
def numChecksRun : List NumCheck → Int → Bool
  | [], _ => true
  | .minNum m :: rest, n => decide (m ≤ n) && numChecksRun rest n
  | .maxNum m :: rest, n => decide (n ≤ m) && numChecksRun rest n

/-- Run the chained array-length checks. -/
def arrChecksRun : List ArrCheck → Nat → Bool
  | [], _ => true
  | .minItems m :: rest, n => decide (m ≤ (n : Int)) && arrChecksRun rest n
  | .maxItems m :: rest, n => decide ((n : Int) ≤ m) && arrChecksRun rest n

mutual
/-- `schema.safeParse(v).success`: acceptance of an input value by a
compiled rule.  Object schemas validate each declared field against the
input's property (absent keys read as `undefined`) and, as zod does by
default, tolerate unknown keys; `optional` and `default` both accept
`undefined`. -/
def acceptsValue : ZodRule → JSValue → Bool
  | .strR checks, .jstr s => strChecksRun checks s
  | .strR _, _ => false
  | .numR checks, .jnum n => numChecksRun checks n
  | .numR _, _ => false
  | .boolR, .jbool _ => true
  | .boolR, _ => false
  | .dateR, .jdate _ => true
  | .dateR, _ => false
  | .arrR item checks, .jarr xs => acceptsEach item xs && arrChecksRun checks xs.length
  | .arrR _ _, _ => false
  | .objPassthrough, .jobj _ => true
  | .objPassthrough, _ => false
  | .objCatchallString, .jobj fields =>
      fields.all fun kv => match kv.2 with | .jstr _ => true | _ => false
  | .objCatchallString, _ => false
  | .anyR, _ => true
  | .objSchema fields, .jobj vfields => acceptsFields fields vfields
  | .objSchema _, _ => false
  | .optR r, v => match v with | .jundefined => true | v => acceptsValue r v
  | .withDefault r _, v => match v with | .jundefined => true | v => acceptsValue r v

/-- Every element of a parsed array satisfies the item rule. -/
def acceptsEach : ZodRule → List JSValue → Bool
  | _, [] => true
  | item, v :: rest => acceptsValue item v && acceptsEach item rest

/-- Every declared object field accepts the corresponding input property. -/
def acceptsFields : List (String × ZodRule) → List (String × JSValue) → Bool
  | [], _ => true
  | (k, r) :: rest, vfields =>
      acceptsValue r (objGet vfields k) && acceptsFields rest vfields
end

/-- The `middleware` option bag of the persistence compiler: pre/post
lifecycle hooks, handlers opaque. -/
structure MiddlewareOpts where
  preHooks : List (String × JSValue)
  postHooks : List (String × JSValue)
deriving Repr

/-- The rest-options bag a `createSchemas` call forwards to both compilers
after destructuring `enableCache` away: the persistence-side
`schemaOptions`/`middleware`/`virtuals`/`indexes` and the validation-side
`strictMode`/`customMessages` (the latter two have no modelled effect:
`strictMode` is destructured but never used by the source, and
`customMessages` only feeds diagnostic text, which is not modelled). -/
structure ROpts where
  schemaOptions : List (String × JSValue)
  middleware : MiddlewareOpts
  virtuals : List (String × JSValue)
  indexes : List (String × JSValue)
  strictMode : Bool
  customMessages : List (String × String)
deriving Repr

/-- The ObjectId rule the source builds at several places:
`z.string().length(24, ...).regex(/^[0-9a-fA-F]{24}$/, ...)`. -/
def objectIdRule : ZodRule := .strR [.lenEq 24, .regexCheck .hex24]

/-- Truthiness of a raw type token (`fieldProps[0]?.type || 'String'`):
`undefined` and the empty string are falsy. -/
def tokTruthy : TypeTok → Bool
  | .undefTok => false
  | .strTok s => s ≠ ""
  | _ => true

/-- Item-validator switch of the record-form Array branch (the source
duplicates this block verbatim in the constructor-`Array` case and the
string-`'array'` case; it is embedded once). -/
def zodItemBase (t : TypeTok) : ZodRule :=
  match t with
  | .ctorString => .strR []
  | .ctorNumber => .numR []
  | .ctorBoolean => .boolR
  | .ctorDate => .dateR
  | t =>
    match lowerOfTok t with
    | "string" => .strR []
    | "number" => .numR []
    | "boolean" => .boolR
    | "date" => .dateR
    | "objectid" => objectIdRule
    | "object_id" => objectIdRule
    | _ => .anyR

/-- The array-shorthand branch of the validation compiler: item base type
from the head element's `type` (falling back to the string `'String'`,
matched case-sensitively here), then, when the head carries an `enum`,
`.toLowerCase().refine(membership)` — which raises a TypeError when the
item validator is not a string schema, exactly as calling a missing
`.toLowerCase` does in JavaScript. -/
def compileArrShorthand (elems : List ArrHead) : Except String ZodRule :=
  let rawTy := match elems.head? with
    | some (.mk t _) => t
    | none => .undefTok
  let itemType := if tokTruthy rawTy then rawTy else .strTok "String"
  let itemValidator : ZodRule :=
    match itemType with
    | .ctorString => .strR []
    | .strTok "String" => .strR []
    | .ctorNumber => .numR []
    | .strTok "Number" => .numR []
    | .ctorBoolean => .boolR
    | .strTok "Boolean" => .boolR
    | .ctorDate => .dateR
    | .strTok "Date" => .dateR
    | _ => .anyR
  match elems.head? with
  | some (.mk _ (some es)) =>
      match itemValidator with
      | .strR checks =>
          .ok (.arrR (.strR (checks ++
            [.toLowerC, .refineLowerMem (es.map (fun v => jsToLower v))])) [])
      | _ => .error "TypeError: itemValidator.toLowerCase is not a function"
  | _ => .ok (.arrR itemValidator [])

/-- One iteration of the step-2 modifier loop of the validation compiler
(`type` and `items` are skipped by the loop; keys without a `case` fall
through unchanged). -/
def zodApplyProp (r : ZodRule) (p : FProp) : ZodRule :=
  match p with
  | .requiredP b => if b = false then .optR r else r
  | .minlengthP n | .minLengthAltP n =>
      if isStringRule r then appendStrCheck r (.minLen n) else r
  | .maxlengthP n | .maxLengthAltP n =>
      if isStringRule r then appendStrCheck r (.maxLen n) else r
  | .minP n =>
      match r with
      | .numR checks => .numR (checks ++ [.minNum n])
      | .arrR item checks => .arrR item (checks ++ [.minItems n])
      | r => r
  | .maxP n =>
      match r with
      | .numR checks => .numR (checks ++ [.maxNum n])
      | .arrR item checks => .arrR item (checks ++ [.maxItems n])
      | r => r
  | .emailP b =>
      if b && isStringRule r then appendStrCheck r .emailCheck else r
  | .enumP vs =>
      .strR [.toLowerC, .refineLowerMem (vs.map (fun v => jsToLower v))]
  | .regexP pv | .matchP pv =>
      if isStringRule r then appendStrCheck r (.regexCheck (patOfVal pv)) else r
  | .defaultP v =>
      match v with
      | .jundefined => r
      | v => .withDefault r v
  | .refP _ => if isStringRule r then objectIdRule else r
  | .uniqueP _ => r
  | .itemsP _ _ => r
  | .schemaP _ => r
  | .selectP _ => r
  | .sparseP _ => r
  | .indexP _ => r
  | .textP _ => r
  | .immutableP _ => r
  | .transformP _ => r
  | .getP _ => r
  | .setP _ => r

/-- Step 3 of the validation compiler: synthesize the fixed strong-password
pattern when the field name contains "password" (case-insensitively), the
`regex` property is absent (the source does not consult `match` here) and
the rule is string-typed. -/
def zodPasswordStep (fieldName : String) (props : List FProp) (r : ZodRule) : ZodRule :=
  if containsPassword fieldName && (lookupRegex props).isNone && isStringRule r then
    appendStrCheck r (.regexCheck .passwordDefault)
  else r

/-- `fieldProps.default !== undefined`. -/
def zodDefaultDefined (props : List FProp) : Bool :=
  match lookupDefault props with
  | some .jundefined => false
  | some _ => true
  | none => false

/-- `fieldProps.required !== true`. -/
def zodRequiredNotTrue (props : List FProp) : Bool :=
  match lookupRequired props with
  | some true => false
  | _ => true

/-- Step 4 of the validation compiler: `.optional()` when `default` is a
defined value and `required` is not explicitly `true`. -/
def zodDefaultStep (props : List FProp) (r : ZodRule) : ZodRule :=
  if zodDefaultDefined props && zodRequiredNotTrue props then .optR r else r

/-- A found `schema` modifier is a structural subterm of the modifier
list; justifies the recursion of the validation compiler into nested
schema definitions. -/
theorem lookupSchema_sizeOf (props : List FProp) (d : List (String × FieldEntry))
    (h : lookupSchema props = some d) : sizeOf d < sizeOf props := by
  induction props with
  | nil => simp [lookupSchema] at h
  | cons p rest ih =>
    cases p <;> simp only [lookupSchema] at h <;>
      first
      | (cases h; simp; omega)
      | (have h2 := ih h; simp; omega)

/-- Every type token has positive size (used for termination). -/
theorem tokSizePos (t : TypeTok) : 1 ≤ sizeOf t := by
  cases t <;> simp

mutual
/-- `createZodSchema`: compile every field of the definition in order into
a zod object schema, propagating the first thrown compilation error. -/
def createZodSchema (defn : List (String × FieldEntry)) (opts : ROpts) :
    Except String (List (String × ZodRule)) :=
  match defn with
  | [] => .ok []
  | (fieldName, fp) :: rest => do
      let r ← compileZodField fieldName fp opts
      let rs ← createZodSchema rest opts
      .ok ((fieldName, r) :: rs)
termination_by sizeOf defn

/-- One field of the validation compiler: the array-shorthand branch, or
base-type resolution followed by the modifier loop (step 2), the password
heuristic (step 3) and the default-optionality rule (step 4). -/
def compileZodField (fieldName : String) (fp : FieldEntry) (opts : ROpts) :
    Except String ZodRule :=
  match fp with
  | .arrForm elems => compileArrShorthand elems
  | .objForm ty props =>
      (zodBaseFor fieldName ty props opts).map fun b =>
        zodDefaultStep props (zodPasswordStep fieldName props
          (props.foldl zodApplyProp b))
termination_by sizeOf fp
decreasing_by
  have := tokSizePos ty
  simp
  omega

/-- Step 1 of the validation compiler: the outer switch over the raw type
token (primitive-constructor identities first, then the string-alias
switch on the lowercased token). -/
def zodBaseFor (fieldName : String) (ty : TypeTok) (props : List FProp)
    (opts : ROpts) : Except String ZodRule :=
  match ty with
  | .ctorString => .ok (.strR [])
  | .ctorNumber => .ok (.numR [])
  | .ctorBoolean => .ok .boolR
  | .ctorDate => .ok .dateR
  | .ctorArray =>
      match lookupItems props with
      | some (it, _) => .ok (.arrR (zodItemBase it) [])
      | none => .ok (.arrR .anyR [])
  | .ctorObject => .ok .objPassthrough
  | .ctorMap => .ok .objCatchallString
  | ty => zodStrTypeBase fieldName (lowerOfTok ty) props opts
termination_by (sizeOf props) + 1

/-- The string-alias switch of step 1; `'object'` with a nested `schema`
modifier recurses into the full compiler, unresolved tokens raise the
fatal "Invalid type" compilation error (the thrown message interpolates
the offending raw token in the source; the embedded payload carries the
lowercased token). -/
def zodStrTypeBase (fieldName : String) (typeStr : String) (props : List FProp)
    (opts : ROpts) : Except String ZodRule :=
  match typeStr with
  | "string" => .ok (.strR [])
  | "number" => .ok (.numR [])
  | "boolean" => .ok .boolR
  | "date" => .ok .dateR
  | "array" =>
      match lookupItems props with
      | some (it, _) => .ok (.arrR (zodItemBase it) [])
      | none => .ok (.arrR .anyR [])
  | "objectid" => .ok objectIdRule
  | "object_id" => .ok objectIdRule
  | "object" =>
      match h : lookupSchema props with
      | some d => (createZodSchema d opts).map fun fields => .objSchema fields
      | none => .ok .objPassthrough
  | "mixed" => .ok .anyR
  | "map" => .ok .objCatchallString
  | other => .error ("Invalid type: " ++ other)
termination_by sizeOf props
decreasing_by
  exact lookupSchema_sizeOf props d h
end

/-- The string-alias switch of the persistence type resolver (`'map'` has
no case here — unmatched strings fall through to the permissive default). -/
def mongooseStrType (ts : String) : Option TypeTok :=
  match ts with
  | "string" => some .ctorString
  | "number" => some .ctorNumber
  | "boolean" => some .ctorBoolean
  | "date" => some .ctorDate
  | "array" => some .ctorArray
  | "objectid" => some .mongooseObjectId
  | "object_id" => some .mongooseObjectId
  | "mixed" => some .mongooseMixed
  | "object" => some .mongooseMixed
  | _ => none

/-- The persistence type resolver: primitive-constructor identities, then
the lowercased string-alias switch, and finally the permissive
pass-through of whatever token was supplied. -/
def mongooseTypeOf (t : TypeTok) : TypeTok :=
  match t with
  | .ctorString => .ctorString
  | .ctorNumber => .ctorNumber
  | .ctorBoolean => .ctorBoolean
  | .ctorDate => .ctorDate
  | .ctorArray => .ctorArray
  | t =>
    match mongooseStrType (lowerOfTok t) with
    | some r => r
    | none => t

/-- The value stored in `fieldConfig.type`: a bare token or the
array-of-token form `[T]` the `items` case installs. -/
inductive MTypeVal where
  | single (t : TypeTok)
  | listOf (t : TypeTok)
deriving Repr, DecidableEq

/-- The custom `validate` entry of a persistence field config; validator
closures are kept structurally (their execution belongs to the storage
engine). -/
inductive MValidate where
  | emailValidator
  | regexValidator (p : Pat)
deriving Repr, DecidableEq

/-- The flat persistence field configuration assembled per field. -/
structure MFieldConfig where
  type : MTypeVal
  required : Option Bool
  unique : Option JSValue
  minlength : Option Nat
  maxlength : Option Nat
  min : Option Int
  max : Option Int
  default : Option JSValue
  ref : Option String
  enum : Option (List String)
  validate : Option MValidate
  select : Option JSValue
  sparse : Option JSValue
  index : Option JSValue
  text : Option JSValue
  immutable : Option JSValue
  transform : Option JSValue
  getH : Option JSValue
  setH : Option JSValue
deriving Repr

/-- A fresh `fieldConfig` holding only the resolved type. -/
def initMFieldConfig (t : MTypeVal) : MFieldConfig :=
  ⟨t, none, none, none, none, none, none, none, none, none, none,
   none, none, none, none, none, none, none, none⟩

/-- One iteration of the persistence compiler's modifier loop; keys
without a `case` (such as `schema`) fall through unchanged. -/
def applyMongooseProp (cfg : MFieldConfig) (p : FProp) : MFieldConfig :=
  match p with
  | .requiredP b => { cfg with required := some b }
  | .uniqueP v => { cfg with unique := some v }
  | .minlengthP n | .minLengthAltP n => { cfg with minlength := some n }
  | .maxlengthP n | .maxLengthAltP n => { cfg with maxlength := some n }
  | .minP n => { cfg with min := some n }
  | .maxP n => { cfg with max := some n }
  | .defaultP v => { cfg with default := some v }
  | .refP s => { cfg with ref := some s }
  | .itemsP t r =>
      if cfg.type = MTypeVal.single .ctorArray then
        match t with
        | .ctorString => { cfg with type := .listOf .ctorString }
        | .ctorNumber => { cfg with type := .listOf .ctorNumber }
        | .ctorDate => { cfg with type := .listOf .ctorDate }
        | .ctorBoolean => { cfg with type := .listOf .ctorBoolean }
        | .ctorArray => { cfg with type := .listOf .ctorArray }
        | t =>
          match lowerOfTok t with
          | "string" => { cfg with type := .listOf .ctorString }
          | "number" => { cfg with type := .listOf .ctorNumber }
          | "date" => { cfg with type := .listOf .ctorDate }
          | "boolean" => { cfg with type := .listOf .ctorBoolean }
          | "array" => { cfg with type := .listOf .ctorArray }
          | "objectid" | "object_id" =>
              let cfg := { cfg with type := MTypeVal.listOf .mongooseObjectId }
              match r with
              | some rv => { cfg with ref := some rv }
              | none => cfg
          | "mixed" | "object" => { cfg with type := .listOf .mongooseMixed }
          | _ => { cfg with type := .listOf .mongooseMixed }
      else cfg
  | .emailP b =>
      if b = true then { cfg with validate := some .emailValidator } else cfg
  | .enumP vs => { cfg with enum := some vs }
  | .regexP pv | .matchP pv =>
      { cfg with validate := some (.regexValidator (patOfVal pv)) }
  | .schemaP _ => cfg
  | .selectP v => { cfg with select := some v }
  | .sparseP v => { cfg with sparse := some v }
  | .indexP v => { cfg with index := some v }
  | .textP v => { cfg with text := some v }
  | .immutableP v => { cfg with immutable := some v }
  | .transformP v => { cfg with transform := some v }
  | .getP v => { cfg with getH := some v }
  | .setP v => { cfg with setH := some v }

/-- One field of the persistence compiler.  An array-shorthand FieldSpec
has no `type` property (resolution passes `undefined` through) and its
index-keyed entries match no case of the modifier switch. -/
def compileMongooseField : FieldEntry → MFieldConfig
  | .objForm ty props =>
      props.foldl applyMongooseProp (initMFieldConfig (.single (mongooseTypeOf ty)))
  | .arrForm _ => initMFieldConfig (.single (mongooseTypeOf .undefTok))

/-- JS object assignment: update an existing key in place, else append. -/
def objUpsert (l : List (String × JSValue)) (kv : String × JSValue) :
    List (String × JSValue) :=
  match l with
  | [] => [kv]
  | (k, v) :: rest =>
      if k = kv.1 then (k, kv.2) :: rest else (k, v) :: objUpsert rest kv

/-- The object literal `{ ...base, ...extra }` (later keys override). -/
def objSpread (base extra : List (String × JSValue)) : List (String × JSValue) :=
  extra.foldl objUpsert base

/-- The compiled persistence schema: the per-field configs and the four
delegations handed verbatim to the storage engine (schema options with
the merged `timestamps: true` default, lifecycle hooks, virtuals,
secondary indexes). -/
structure MSchema where
  fields : List (String × MFieldConfig)
  options : List (String × JSValue)
  preHooks : List (String × JSValue)
  postHooks : List (String × JSValue)
  virtuals : List (String × JSValue)
  indexes : List (String × JSValue)
deriving Repr

/-- `createMongooseSchema`: compile every field, merge
`{ timestamps: true, ...schemaOptions }`, and register the supplied
middleware, virtuals and indexes. -/
def createMongooseSchema (defn : List (String × FieldEntry)) (opts : ROpts) :
    MSchema :=
  { fields := defn.map fun nf => (nf.1, compileMongooseField nf.2),
    options := objSpread [("timestamps", .jbool true)] opts.schemaOptions,
    preHooks := opts.middleware.preHooks,
    postHooks := opts.middleware.postHooks,
    virtuals := opts.virtuals,
    indexes := opts.indexes }

/-- Property read `v[k]`: throws the JS TypeError on `null`/`undefined`
bases, reads own entries of objects, and yields `undefined` for the keys
the normalizer reads on any other value. -/
def getProp (v : JSValue) (k : String) : Except String JSValue :=
  match v with
  | .jnull => .error "TypeError: Cannot read properties of null"
  | .jundefined => .error "TypeError: Cannot read properties of undefined"
  | .jobj fields => .ok (objGet fields k)
  | _ => .ok .jundefined

mutual
/-- Element stringification of `Array.prototype.join`: `null` and
`undefined` print as empty, nested arrays recursively join with `','`
(dates and functions are never produced by the validation engine's issue
paths; their text is modelled nominally). -/
def jsJoinStr : JSValue → String
  | .jnull => ""
  | .jundefined => ""
  | .jbool b => if b then "true" else "false"
  | .jnum n => toString n
  | .jstr s => s
  | .jdate _ => "Date"
  | .jfunc => "function"
  | .jarr xs => jsJoinList "," xs
  | .jobj _ => "[object Object]"
termination_by v => sizeOf v

/-- `Array.prototype.join(sep)`. -/
def jsJoinList (sep : String) : List JSValue → String
  | [] => ""
  | [x] => jsJoinStr x
  | x :: rest => jsJoinStr x ++ sep ++ jsJoinList sep rest
termination_by xs => sizeOf xs
end

/-- One entry of the error normalizer's `.map` callback: `field` from the
joined path (or `'unknown'`), defaulted `message`/`code`, `value` from
`input || received`, `type` from `expected || format || 'unknown'`.
Property reads on a `null`/`undefined` entry and `.join` on a truthy
non-array path throw, exactly as in JavaScript. -/
def normalizeEntry (err : JSValue) : Except String JSValue := do
  let p ← getProp err "path"
  let field ←
    if jsTruthy p then
      match p with
      | .jarr xs => Except.ok (JSValue.jstr (jsJoinList "." xs))
      | _ => Except.error "TypeError: err.path.join is not a function"
    else Except.ok (JSValue.jstr "unknown")
  let msg ← getProp err "message"
  let code ← getProp err "code"
  let inputV ← getProp err "input"
  let recvV ← getProp err "received"
  let expectedV ← getProp err "expected"
  let formatV ← getProp err "format"
  Except.ok (.jobj
    [("field", field),
     ("message", jsOr msg (.jstr "Validation failed")),
     ("code", jsOr code (.jstr "unknown")),
     ("value", jsOr inputV recvV),
     ("type", jsOr expectedV (jsOr formatV (.jstr "unknown")))])

/-- `normalizeZodErrors`: pick `error.issues || error.errors || []` and map
every entry through `normalizeEntry`; calling `.map` on a truthy non-array
throws, as does any entry-level TypeError. -/
def normalizeZodErrors (errV : JSValue) : Except String JSValue := do
  let issues ← getProp errV "issues"
  let errorList ←
    if jsTruthy issues then Except.ok issues
    else do
      let errs ← getProp errV "errors"
      Except.ok (jsOr errs (.jarr []))
  match errorList with
  | .jarr entries => do
      let outs ← entries.mapM normalizeEntry
      Except.ok (.jarr outs)
  | _ => .error "TypeError: errorList.map is not a function"

/-- `JSON.stringify` of a raw type token: string aliases stay strings,
the absent property is `undefined`, every constructor and mongoose
schema-type class is a function value (dropped by serialization). -/
def tokJs : TypeTok → JSValue
  | .strTok s => .jstr s
  | .undefTok => .jundefined
  | _ => .jfunc

/-- `JSON.stringify` view of a `regex`/`match` value: a RegExp object has
no enumerable own properties (serializes as `{}`); a pattern-source
string stays a string. -/
def patValJs : PatVal → JSValue
  | .reP _ => .jobj []
  | .strP s => .jstr s

/-- `JSON.stringify` view of an array-shorthand head element. -/
def headJs : ArrHead → JSValue
  | .mk t e =>
      .jobj (("type", tokJs t) ::
        (match e with
         | some es => [("enum", .jarr (es.map JSValue.jstr))]
         | none => []))

mutual
/-- The own entries of a schema definition, as a JS object. -/
def jsOfDefnFields : List (String × FieldEntry) → List (String × JSValue)
  | [] => []
  | (n, f) :: rest => (n, jsOfField f) :: jsOfDefnFields rest
termination_by d => sizeOf d

/-- A FieldSpec as the JS value `JSON.stringify` sees. -/
def jsOfField : FieldEntry → JSValue
  | .objForm ty props => .jobj (("type", tokJs ty) :: jsOfPropsFields props)
  | .arrForm elems => .jarr (elems.map headJs)
termination_by f => sizeOf f

/-- The modifier entries of a record-form FieldSpec, as JS object entries. -/
def jsOfPropsFields : List FProp → List (String × JSValue)
  | [] => []
  | p :: rest => jsOfPropEntry p :: jsOfPropsFields rest
termination_by ps => sizeOf ps

/-- One modifier entry as the `(key, value)` pair `JSON.stringify` sees. -/
def jsOfPropEntry : FProp → (String × JSValue)
  | .requiredP b => ("required", .jbool b)
  | .uniqueP v => ("unique", v)
  | .minlengthP n => ("minlength", .jnum n)
  | .minLengthAltP n => ("minLength", .jnum n)
  | .maxlengthP n => ("maxlength", .jnum n)
  | .maxLengthAltP n => ("maxLength", .jnum n)
  | .minP n => ("min", .jnum n)
  | .maxP n => ("max", .jnum n)
  | .defaultP v => ("default", v)
  | .refP s => ("ref", .jstr s)
  | .itemsP t r =>
      ("items", .jobj (("type", tokJs t) ::
        (match r with
         | some s => [("ref", JSValue.jstr s)]
         | none => [])))
  | .emailP b => ("email", .jbool b)
  | .enumP vs => ("enum", .jarr (vs.map JSValue.jstr))
  | .regexP pv => ("regex", patValJs pv)
  | .matchP pv => ("match", patValJs pv)
  | .schemaP d => ("schema", .jobj (jsOfDefnFields d))
  | .selectP v => ("select", v)
  | .sparseP v => ("sparse", v)
  | .indexP v => ("index", v)
  | .textP v => ("text", v)
  | .immutableP v => ("immutable", v)
  | .transformP v => ("transform", v)
  | .getP v => ("get", v)
  | .setP v => ("set", v)
termination_by p => sizeOf p
end

/-- JSON string escaping (quote and backslash; sufficient for the
modelled value space). -/
def jsonEscape (s : String) : String :=
  s.data.foldl
    (fun acc c =>
      acc ++ (if c = '"' then "\\\"" else if c = '\\' then "\\\\"
              else String.singleton c)) ""

mutual
/-- `JSON.stringify`: `undefined` and functions have no serialization
(`none`, dropped inside objects, `null` inside arrays); a `Date` prints
as its time value (nominal — never part of a cache key in any claim). -/
def jsonOfValue : JSValue → Option String
  | .jnull => some "null"
  | .jundefined => none
  | .jfunc => none
  | .jbool b => some (if b then "true" else "false")
  | .jnum n => some (toString n)
  | .jstr s => some ("\"" ++ jsonEscape s ++ "\"")
  | .jdate t => some ("\"" ++ toString t ++ "\"")
  | .jarr xs => some ("[" ++ jsonArrElems xs ++ "]")
  | .jobj fields => some ("\x7b" ++ jsonObjFields fields ++ "\x7d")
termination_by v => sizeOf v

/-- Array elements of `JSON.stringify` (unserializable elements print as
`null`). -/
def jsonArrElems : List JSValue → String
  | [] => ""
  | [x] => (jsonOfValue x).getD "null"
  | x :: rest => ((jsonOfValue x).getD "null") ++ "," ++ jsonArrElems rest
termination_by xs => sizeOf xs

/-- Object entries of `JSON.stringify` (entries with unserializable
values are dropped). -/
def jsonObjFields : List (String × JSValue) → String
  | [] => ""
  | (k, v) :: rest =>
      match jsonOfValue v with
      | none => jsonObjFields rest
      | some js =>
          let restS := jsonObjFields rest
          "\"" ++ jsonEscape k ++ "\":" ++ js ++
            (if restS = "" then "" else ",") ++ restS
termination_by fields => sizeOf fields
end

/-- The rest-options bag as the JS value `JSON.stringify` sees (the bag is
modelled as a fixed-shape record, so the entry order is fixed; the cache
theorems only need the key to be a function of the arguments). -/
def jsOfROpts (o : ROpts) : JSValue :=
  .jobj
    [("schemaOptions", .jobj o.schemaOptions),
     ("middleware", .jobj
        [("pre", .jobj o.middleware.preHooks),
         ("post", .jobj o.middleware.postHooks)]),
     ("virtuals", .jobj o.virtuals),
     ("indexes", .jobj o.indexes),
     ("strictMode", .jbool o.strictMode),
     ("customMessages", .jobj (o.customMessages.map
        fun kv => (kv.1, JSValue.jstr kv.2)))]

/-- `generateCacheKey`: `JSON.stringify({ schemaDefinition, options })`. -/
def generateCacheKey (defn : List (String × FieldEntry)) (opts : ROpts) : String :=
  (jsonOfValue (.jobj
    [("schemaDefinition", .jobj (jsOfDefnFields defn)),
     ("options", jsOfROpts opts)])).getD ""

/-- The compiled pair stored in the cache.  `tag` models JavaScript object
identity (allocation order): two pairs are the same object precisely when
they are equal including `tag`. -/
structure CompiledPair where
  mongooseSchema : MSchema
  zodSchema : List (String × ZodRule)
  tag : Nat
deriving Repr

/-- `Map.prototype.get` over the module-level schema cache. -/
def cacheGet : List (String × CompiledPair) → String → Option CompiledPair
  | [], _ => none
  | (k, v) :: rest, key => if k = key then some v else cacheGet rest key

/-- `Map.prototype.set`: update an existing key in place, else append. -/
def cacheSet (m : List (String × CompiledPair)) (key : String) (v : CompiledPair) :
    List (String × CompiledPair) :=
  match m with
  | [] => [(key, v)]
  | (k, w) :: rest =>
      if k = key then (k, v) :: rest else (k, w) :: cacheSet rest key v

/-- The module-level mutable state: the `schemaCache` map plus the
allocation counter realizing object identity. -/
structure CacheState where
  cache : List (String × CompiledPair)
  nextTag : Nat
deriving Repr

/-- The options object of `createSchemas`:
`const { enableCache = true, ...schemaOptions } = options`. -/
structure SchemasOptions where
  enableCache : Bool
  rest : ROpts

/-- `createSchemas`: on a cache hit return the stored pair by reference;
on a miss compile both schemas (a thrown validation-compilation error
propagates and nothing is stored), store the fresh pair when caching is
enabled, and return it. -/
def createSchemas (st : CacheState) (defn : List (String × FieldEntry))
    (options : SchemasOptions) : Except String (CompiledPair × CacheState) :=
  let schemaOptions := options.rest
  if options.enableCache then
    let cacheKey := generateCacheKey defn schemaOptions
    match cacheGet st.cache cacheKey with
    | some pair => .ok (pair, st)
    | none => do
        let m := createMongooseSchema defn schemaOptions
        let z ← createZodSchema defn schemaOptions
        let result : CompiledPair := ⟨m, z, st.nextTag⟩
        .ok (result, ⟨cacheSet st.cache (generateCacheKey defn schemaOptions) result,
          st.nextTag + 1⟩)
  else do
    let m := createMongooseSchema defn schemaOptions
    let z ← createZodSchema defn schemaOptions
    let result : CompiledPair := ⟨m, z, st.nextTag⟩
    .ok (result, ⟨st.cache, st.nextTag + 1⟩)

/-- First-match lookup in a JS-object entry list (`Option`-valued, to
distinguish an absent key from an explicit `undefined`). -/
def entriesGet : List (String × JSValue) → String → Option JSValue
  | [], _ => none
  | (k, v) :: rest, key => if k = key then some v else entriesGet rest key

theorem entriesGet_upsert_self (l : List (String × JSValue)) (k : String) (v : JSValue) :
    entriesGet (objUpsert l (k, v)) k = some v := by
  induction l with
  | nil => simp [objUpsert, entriesGet]
  | cons kv rest ih =>
    obtain ⟨k0, v0⟩ := kv
    by_cases h : k0 = k <;> simp [objUpsert, entriesGet, h, ih]

theorem entriesGet_upsert_other (l : List (String × JSValue)) (k : String)
    (v : JSValue) (k' : String) (h : k' ≠ k) :
    entriesGet (objUpsert l (k, v)) k' = entriesGet l k' := by
  have h' : ¬ k = k' := fun hh => h hh.symm
  induction l with
  | nil => simp [objUpsert, entriesGet, h']
  | cons kv rest ih =>
    obtain ⟨k0, v0⟩ := kv
    by_cases h0 : k0 = k
    · subst h0
      simp [objUpsert, entriesGet, h']
    · by_cases h1 : k0 = k' <;> simp [objUpsert, entriesGet, h, h0, h1, ih]

theorem entriesGet_spread_no_key (base l : List (String × JSValue)) (k : String)
    (h : k ∉ l.map Prod.fst) :
    entriesGet (objSpread base l) k = entriesGet base k := by
  induction l generalizing base with
  | nil => rfl
  | cons kv rest ih =>
    obtain ⟨k0, v0⟩ := kv
    simp only [List.map_cons, List.mem_cons, not_or] at h
    have step : objSpread base ((k0, v0) :: rest) = objSpread (objUpsert base (k0, v0)) rest := rfl
    rw [step, ih _ h.2, entriesGet_upsert_other _ _ _ _ h.1]

theorem entriesGet_spread_found (base l : List (String × JSValue)) (k : String)
    (w : JSValue) (hnd : (l.map Prod.fst).Nodup) (hk : entriesGet l k = some w) :
    entriesGet (objSpread base l) k = some w := by
  induction l generalizing base with
  | nil => simp [entriesGet] at hk
  | cons kv rest ih =>
    obtain ⟨k0, v0⟩ := kv
    simp only [List.map_cons, List.nodup_cons] at hnd
    have step : objSpread base ((k0, v0) :: rest) = objSpread (objUpsert base (k0, v0)) rest := rfl
    by_cases h0 : k0 = k
    · subst h0
      simp only [entriesGet] at hk
      simp only [if_pos trivial, Option.some.injEq] at hk
      rw [step, entriesGet_spread_no_key _ _ _ hnd.1, entriesGet_upsert_self, hk]
    · simp only [entriesGet, if_neg h0] at hk
      rw [step, ih _ hnd.2 hk]

theorem entriesGet_spread_absent (base l : List (String × JSValue)) (k : String)
    (hb : entriesGet base k = none) (hnd : (l.map Prod.fst).Nodup) :
    entriesGet (objSpread base l) k = entriesGet l k := by
  induction l generalizing base with
  | nil => simpa [entriesGet] using hb
  | cons kv rest ih =>
    obtain ⟨k0, v0⟩ := kv
    simp only [List.map_cons, List.nodup_cons] at hnd
    have step : objSpread base ((k0, v0) :: rest) = objSpread (objUpsert base (k0, v0)) rest := rfl
    by_cases h0 : k0 = k
    · subst h0
      rw [step, entriesGet_spread_no_key _ _ _ hnd.1, entriesGet_upsert_self]
      simp [entriesGet]
    · have hb' : entriesGet (objUpsert base (k0, v0)) k = none := by
        rw [entriesGet_upsert_other _ _ _ _ (fun hh => h0 hh.symm)]; exact hb
      rw [step, ih _ hb' hnd.2]
      simp [entriesGet, h0]

/-- Claim C10: the persistence schema builder merges a `timestamps: true`
default into the schema options handed to the storage engine; a
caller-supplied entry with the same key overrides it, and every other
caller entry is forwarded verbatim.  With no `schemaOptions` the schema is
created with exactly `{ timestamps: true }`. -/
theorem c10_timestamps_default (defn : List (String × FieldEntry)) (opts : ROpts)
    (hnd : (opts.schemaOptions.map Prod.fst).Nodup) :
    (opts.schemaOptions = [] →
      (createMongooseSchema defn opts).options = [("timestamps", .jbool true)]) ∧
    (∀ w, entriesGet opts.schemaOptions "timestamps" = some w →
      entriesGet (createMongooseSchema defn opts).options "timestamps" = some w) ∧
    ("timestamps" ∉ opts.schemaOptions.map Prod.fst →
      entriesGet (createMongooseSchema defn opts).options "timestamps" = some (.jbool true)) ∧
    (∀ k, k ≠ "timestamps" →
      entriesGet (createMongooseSchema defn opts).options k = entriesGet opts.schemaOptions k) := by
  have hopts : (createMongooseSchema defn opts).options =
      objSpread [("timestamps", .jbool true)] opts.schemaOptions := rfl
  refine ⟨?_, ?_, ?_, ?_⟩
  · intro h
    rw [hopts, h]
    rfl
  · intro w hw
    rw [hopts]
    exact entriesGet_spread_found _ _ _ _ hnd hw
  · intro h
    rw [hopts, entriesGet_spread_no_key _ _ _ h]
    rfl
  · intro k hk
    have hne : ¬ ("timestamps" = k) := fun hh => hk hh.symm
    have hb : entriesGet [("timestamps", JSValue.jbool true)] k = none := by
      simp only [entriesGet, if_neg hne]
    rw [hopts, entriesGet_spread_absent _ _ _ hb hnd]

/-- Witness for C10 at concrete inputs: an empty options bag yields exactly
`{ timestamps: true }`; a caller-supplied `timestamps: false` overrides the
default, and an unrelated `versionKey` entry is forwarded. -/
theorem c10_timestamps_default_witness :
    (createMongooseSchema [] ⟨[], ⟨[], []⟩, [], [], false, []⟩).options =
      [("timestamps", .jbool true)] ∧
    entriesGet (createMongooseSchema []
      ⟨[("timestamps", .jbool false), ("versionKey", .jbool false)],
        ⟨[], []⟩, [], [], false, []⟩).options "timestamps" = some (.jbool false) ∧
    entriesGet (createMongooseSchema []
      ⟨[("timestamps", .jbool false), ("versionKey", .jbool false)],
        ⟨[], []⟩, [], [], false, []⟩).options "versionKey" = some (.jbool false) := by
  refine ⟨(c10_timestamps_default [] _ (by decide)).1 rfl, ?_, ?_⟩
  · exact (c10_timestamps_default [] _ (by decide)).2.1 (.jbool false) rfl
  · rw [(c10_timestamps_default [] _ (by decide)).2.2.2 "versionKey" (by decide)]
    rfl

theorem applyMongooseProp_enum (cfg : MFieldConfig) (p : FProp) :
    (applyMongooseProp cfg p).enum =
      (match p with
       | .enumP vs => some vs
       | _ => cfg.enum) := by
  cases p <;> simp only [applyMongooseProp] <;> (try rfl) <;>
    (repeat' split) <;> rfl

theorem lookupEnum_eq_none (l : List FProp) (h : "enum" ∉ l.map propKey) :
    lookupEnum l = none := by
  induction l with
  | nil => rfl
  | cons p rest ih =>
    simp only [List.map_cons, List.mem_cons, not_or] at h
    cases p <;> first
      | exact absurd rfl h.1
      | simpa [lookupEnum] using ih h.2

theorem lookupEnum_none_foldl (l : List FProp) (cfg : MFieldConfig)
    (h : lookupEnum l = none) :
    (l.foldl applyMongooseProp cfg).enum = cfg.enum := by
  induction l generalizing cfg with
  | nil => rfl
  | cons p rest ih =>
    cases p <;> first
      | (simp [lookupEnum] at h; done)
      | (simp only [lookupEnum] at h
         simp only [List.foldl_cons]
         rw [ih _ h, applyMongooseProp_enum])

theorem foldl_enum_of_lookup (l : List FProp) (cfg : MFieldConfig) (es : List String)
    (hnd : (l.map propKey).Nodup) (he : lookupEnum l = some es) :
    (l.foldl applyMongooseProp cfg).enum = some es := by
  induction l generalizing cfg with
  | nil => simp [lookupEnum] at he
  | cons p rest ih =>
    simp only [List.map_cons, List.nodup_cons] at hnd
    cases p <;> first
      | (simp only [lookupEnum, Option.some.injEq] at he
         subst he
         simp only [List.foldl_cons]
         rw [lookupEnum_none_foldl _ _ (lookupEnum_eq_none _ hnd.1),
           applyMongooseProp_enum])
      | (simp only [lookupEnum] at he
         simp only [List.foldl_cons]
         exact ih _ hnd.2 he)

/-- Counterexample to claim C4: a FieldSpec carrying an `enum` modifier
does produce an `enum` entry in the persistence field config — the
compiler copies the array verbatim (source lines 169–173). -/
theorem c4_counterexample :
    (compileMongooseField (.objForm (.strTok "String")
      [.enumP ["admin", "user"]])).enum = some ["admin", "user"] := by
  decide

/-- Claim C4 as amended: for every record-form FieldSpec whose `enum`
modifier holds an array of values, the persistence field compiler copies
that array verbatim into the output config's `enum` entry (the validation
path is not the only place enum is enforced). -/
theorem c4_enum_copied (ty : TypeTok) (props : List FProp) (es : List String)
    (hnd : propsKeysNodup props) (he : lookupEnum props = some es) :
    (compileMongooseField (.objForm ty props)).enum = some es := by
  exact foldl_enum_of_lookup props _ es hnd he

/-- Witness for the amended C4 at the counterexample's input. -/
theorem c4_enum_copied_witness :
    (compileMongooseField (.objForm (.strTok "String")
      [.enumP ["admin", "user"]])).enum = some ["admin", "user"] := by
  exact c4_enum_copied (.strTok "String") [.enumP ["admin", "user"]]
    ["admin", "user"] (by decide) rfl

/-- The nine type names the spec's alias table lists, lowercased (the
two ObjectId spellings both count). -/
def mongooseAliases : List String :=
  ["string", "number", "boolean", "date", "array", "objectid", "object_id",
   "mixed", "object"]

theorem mongooseStrType_fixpoint (s : String) (r : TypeTok)
    (h : mongooseStrType s = some r) : mongooseTypeOf r = r := by
  unfold mongooseStrType at h
  split at h <;> first
    | (injection h with h2; subst h2; decide)
    | exact Option.noConfusion h

theorem mongooseTypeOf_strTok_of_alias (s : String) (r : TypeTok)
    (h : mongooseStrType (jsToLower s) = some r) :
    mongooseTypeOf (.strTok s) = r := by
  simp [mongooseTypeOf, lowerOfTok, h]

theorem mongooseAlias_isSome (x : String) (hx : x ∈ mongooseAliases) :
    (mongooseStrType x).isSome = true := by
  fin_cases hx <;> rfl

/-- Counterexample to claim C6: the persistence resolver has no case for
`map`, so different casings of the Map type name resolve to different
literal pass-through values. -/
theorem c6_counterexample :
    mongooseTypeOf (.strTok "Map") ≠ mongooseTypeOf (.strTok "map") := by
  decide

/-- Claim C6 as amended: string-token type resolution is case-insensitive
for all nine names on the validation side; on the persistence side it is
case-insensitive for the eight alias names other than Map (a `map` string
has no case and passes through verbatim, preserving its casing), and
persistence resolution is idempotent on every token. -/
theorem c6_type_resolution (name : String) (props : List FProp) (opts : ROpts)
    (s1 s2 : String) (t : TypeTok)
    (hlow : jsToLower s1 = jsToLower s2) :
    (zodBaseFor name (.strTok s1) props opts =
      zodBaseFor name (.strTok s2) props opts) ∧
    (jsToLower s1 ∈ mongooseAliases →
      mongooseTypeOf (.strTok s1) = mongooseTypeOf (.strTok s2)) ∧
    (mongooseTypeOf (mongooseTypeOf t) = mongooseTypeOf t) := by
  refine ⟨?_, ?_, ?_⟩
  · have e1 : zodBaseFor name (.strTok s1) props opts =
        zodStrTypeBase name (jsToLower s1) props opts := by
      simp only [zodBaseFor, lowerOfTok]
    have e2 : zodBaseFor name (.strTok s2) props opts =
        zodStrTypeBase name (jsToLower s2) props opts := by
      simp only [zodBaseFor, lowerOfTok]
    rw [e1, e2, hlow]
  · intro hmem
    have hs := mongooseAlias_isSome _ hmem
    obtain ⟨r, hr⟩ := Option.isSome_iff_exists.mp hs
    have hr2 : mongooseStrType (jsToLower s2) = some r := by rw [← hlow]; exact hr
    rw [mongooseTypeOf_strTok_of_alias s1 r hr,
      mongooseTypeOf_strTok_of_alias s2 r hr2]
  · cases t with
    | strTok s =>
      cases hval : mongooseStrType (jsToLower s) with
      | some r =>
        rw [mongooseTypeOf_strTok_of_alias s r hval,
          mongooseStrType_fixpoint _ _ hval]
      | none =>
        have hpass : mongooseTypeOf (.strTok s) = .strTok s := by
          simp [mongooseTypeOf, lowerOfTok, hval]
        rw [hpass, hpass]
    | _ => decide

/-- Witness for the amended C6: `'STRING'`/`'string'` agree on both paths,
and resolution of the already-resolved ObjectId constant is a fixpoint. -/
theorem c6_type_resolution_witness :
    zodBaseFor "f" (.strTok "STRING") [] ⟨[], ⟨[], []⟩, [], [], false, []⟩ =
      zodBaseFor "f" (.strTok "string") [] ⟨[], ⟨[], []⟩, [], [], false, []⟩ ∧
    mongooseTypeOf (.strTok "STRING") = mongooseTypeOf (.strTok "string") ∧
    mongooseTypeOf (mongooseTypeOf (.strTok "objectid")) =
      mongooseTypeOf (.strTok "objectid") := by
  have h := c6_type_resolution "f" [] ⟨[], ⟨[], []⟩, [], [], false, []⟩
    "STRING" "string" (.strTok "objectid") (by decide)
  exact ⟨h.1, h.2.1 (by decide), h.2.2⟩

/-- Total property read used to state the normalizer's per-entry result on
entries whose reads cannot throw. -/
def jsProp (x : JSValue) (k : String) : JSValue :=
  match x with
  | .jobj fs => objGet fs k
  | _ => .jundefined

/-- An entry the normalizer handles without throwing: not `null` or
`undefined` (property reads throw there), and its `path`, when truthy, is
an array (so `.join` exists). -/
def entryGoodB (x : JSValue) : Bool :=
  match x with
  | .jnull => false
  | .jundefined => false
  | .jobj fs =>
      (match objGet fs "path" with
       | .jarr _ => true
       | p => !(jsTruthy p))
  | _ => true

/-- The normalizer's per-entry output on a well-behaved entry: `field`
from the dot-joined path else `"unknown"`, `message` defaulting to
`"Validation failed"`, `code` defaulting to `"unknown"`, `value` from
`input || received`, `type` from `expected || format || "unknown"`. -/
def normEntryTotal (x : JSValue) : JSValue :=
  .jobj
    [("field",
       match jsProp x "path" with
       | .jarr xs => .jstr (jsJoinList "." xs)
       | _ => .jstr "unknown"),
     ("message", jsOr (jsProp x "message") (.jstr "Validation failed")),
     ("code", jsOr (jsProp x "code") (.jstr "unknown")),
     ("value", jsOr (jsProp x "input") (jsProp x "received")),
     ("type", jsOr (jsProp x "expected") (jsOr (jsProp x "format") (.jstr "unknown")))]

theorem normalizeEntry_good (x : JSValue) (hx : entryGoodB x = true) :
    normalizeEntry x = .ok (normEntryTotal x) := by
  cases x with
  | jnull => simp [entryGoodB] at hx
  | jundefined => simp [entryGoodB] at hx
  | jobj fs =>
    simp only [entryGoodB] at hx
    cases hp : objGet fs "path" <;> rw [hp] at hx <;>
      simp_all [normalizeEntry, getProp, normEntryTotal, jsProp, jsTruthy, jsOr,
        Bind.bind, Except.bind, hp]
  | jbool b =>
    simp [normalizeEntry, getProp, normEntryTotal, jsProp, jsTruthy,
      Bind.bind, Except.bind]
  | jnum n =>
    simp [normalizeEntry, getProp, normEntryTotal, jsProp, jsTruthy,
      Bind.bind, Except.bind]
  | jstr s =>
    simp [normalizeEntry, getProp, normEntryTotal, jsProp, jsTruthy,
      Bind.bind, Except.bind]
  | jdate t =>
    simp [normalizeEntry, getProp, normEntryTotal, jsProp, jsTruthy,
      Bind.bind, Except.bind]
  | jfunc =>
    simp [normalizeEntry, getProp, normEntryTotal, jsProp, jsTruthy,
      Bind.bind, Except.bind]
  | jarr xs =>
    simp [normalizeEntry, getProp, normEntryTotal, jsProp, jsTruthy,
      Bind.bind, Except.bind]

theorem mapMloop_normalizeEntry_good (l : List JSValue) (acc : List JSValue)
    (hent : ∀ x ∈ l, entryGoodB x = true) :
    List.mapM.loop normalizeEntry l acc = .ok (acc.reverse ++ l.map normEntryTotal) := by
  induction l generalizing acc with
  | nil => simp [List.mapM.loop, pure, Except.pure]
  | cons x rest ih =>
    have hx := hent x (List.mem_cons_self x rest)
    have hrest := ih (normEntryTotal x :: acc)
      fun y hy => hent y (List.mem_cons_of_mem x hy)
    simp only [List.mapM.loop, normalizeEntry_good x hx, Bind.bind, Except.bind,
      hrest, List.map_cons, List.reverse_cons]
    simp

theorem mapM_normalizeEntry_good (l : List JSValue)
    (hent : ∀ x ∈ l, entryGoodB x = true) :
    l.mapM normalizeEntry = .ok (l.map normEntryTotal) := by
  simpa using mapMloop_normalizeEntry_good l [] hent

/-- Counterexample to claim C7: on a failure object whose `issues` array
contains a `null` entry, the normalizer throws a TypeError while reading
`err.path` instead of degrading that entry to defaults. -/
theorem c7_counterexample :
    normalizeZodErrors (.jobj [("issues", .jarr [.jnull])]) =
      .error "TypeError: Cannot read properties of null" := by
  rfl

/-- Claim C7 as amended: the normalizer returns an array without throwing
whenever the selected `issues`/`errors` collection (falling back to empty)
is an array of entries that are not `null`/`undefined` and whose truthy
`path` values are arrays; each such entry maps to the defaulted record
`normEntryTotal` describes.  (A `null`/`undefined` entry, or a truthy
non-array `issues` value, throws a TypeError instead.) -/
theorem c7_normalizer (efs : List (String × JSValue)) (l : List JSValue)
    (hl : jsOr (objGet efs "issues") (jsOr (objGet efs "errors") (.jarr [])) = .jarr l)
    (hent : ∀ x ∈ l, entryGoodB x = true) :
    normalizeZodErrors (.jobj efs) = .ok (.jarr (l.map normEntryTotal)) := by
  have hmap := mapM_normalizeEntry_good l hent
  by_cases ht : jsTruthy (objGet efs "issues") = true
  · have hiss : objGet efs "issues" = .jarr l := by
      rw [jsOr, if_pos ht] at hl
      exact hl
    simp [normalizeZodErrors, getProp, Bind.bind, Except.bind, hiss,
      jsTruthy] at hmap ⊢
    · rw [hmap]
  · have ht' : jsTruthy (objGet efs "issues") = false := by
      simpa using ht
    have herr : jsOr (objGet efs "errors") (.jarr []) = .jarr l := by
      rw [jsOr, if_neg (by simp [ht'])] at hl
      exact hl
    simp only [normalizeZodErrors, getProp, Bind.bind, Except.bind, ht',
      Bool.false_eq_true, if_false, herr]
    rw [hmap]

/-- Witness for the amended C7 at a concrete failure object: one entry
lacking `path`, `code`, `input` and `expected` degrades to the defaults. -/
theorem c7_normalizer_witness :
    normalizeZodErrors (.jobj [("issues", .jarr [.jobj [("message", .jstr "boom")]])]) =
      .ok (.jarr [.jobj
        [("field", .jstr "unknown"),
         ("message", .jstr "boom"),
         ("code", .jstr "unknown"),
         ("value", .jundefined),
         ("type", .jstr "unknown")]]) := by
  have h := c7_normalizer [("issues", .jarr [.jobj [("message", .jstr "boom")]])]
    [.jobj [("message", .jstr "boom")]] rfl
    (by
      intro x hx
      rw [List.mem_singleton] at hx
      subst hx
      rfl)
  rw [h]
  rfl

theorem compileZodField_objForm (fieldName : String) (ty : TypeTok)
    (props : List FProp) (opts : ROpts) :
    compileZodField fieldName (.objForm ty props) opts =
      (zodBaseFor fieldName ty props opts).map fun b =>
        zodDefaultStep props (zodPasswordStep fieldName props
          (props.foldl zodApplyProp b)) := by
  rw [compileZodField]

theorem lookupDefault_append (l1 l2 : List FProp) (h : lookupDefault l1 = none) :
    lookupDefault (l1 ++ l2) = lookupDefault l2 := by
  induction l1 with
  | nil => rfl
  | cons p rest ih =>
    cases p <;> first
      | (simp [lookupDefault] at h; done)
      | (simp only [lookupDefault] at h
         simpa [lookupDefault] using ih h)

theorem lookupRequired_append (l1 l2 : List FProp) (h : lookupRequired l1 = none) :
    lookupRequired (l1 ++ l2) = lookupRequired l2 := by
  induction l1 with
  | nil => rfl
  | cons p rest ih =>
    cases p <;> first
      | (simp [lookupRequired] at h; done)
      | (simp only [lookupRequired] at h
         simpa [lookupRequired] using ih h)

/-- Claim C1: a non-empty `enum` of strings replaces whatever rule was
built so far — whatever the declared base type and whatever modifiers
preceded it — with the fresh string rule `z.string().toLowerCase().refine`
that accepts exactly the inputs whose lowercased form lies in the
lowercased allowed set.  (Stated for fields whose name does not trip the
later password heuristic and whose spec carries no `default`, the two
later steps that could wrap the enum rule further.) -/
theorem c1_enum_replaces (name : String) (ty : TypeTok) (pre : List FProp)
    (es : List String) (opts : ROpts) (b : ZodRule) (v : JSValue)
    (hne : es ≠ [])
    (hnp : containsPassword name = false)
    (hnd : lookupDefault pre = none)
    (hbase : zodBaseFor name ty (pre ++ [.enumP es]) opts = .ok b) :
    compileZodField name (.objForm ty (pre ++ [.enumP es])) opts =
      .ok (.strR [.toLowerC, .refineLowerMem (es.map jsToLower)]) ∧
    (acceptsValue (.strR [.toLowerC, .refineLowerMem (es.map jsToLower)]) v = true ↔
      ∃ s, v = .jstr s ∧ (es.map jsToLower).contains (jsToLower s) = true) := by
  constructor
  · rw [compileZodField_objForm, hbase]
    have hfold : (pre ++ [FProp.enumP es]).foldl zodApplyProp b =
        .strR [.toLowerC, .refineLowerMem (es.map jsToLower)] := by
      rw [List.foldl_append]
      rfl
    have hdef : lookupDefault (pre ++ [FProp.enumP es]) = none := by
      rw [lookupDefault_append _ _ hnd]
      rfl
    simp [Except.map, hfold, zodPasswordStep, hnp, zodDefaultStep, zodDefaultDefined, hdef]
  · cases v with
    | jstr s =>
      simp [acceptsValue, strChecksRun]
    | jnull => simp [acceptsValue]
    | jundefined => simp [acceptsValue]
    | jbool b' => simp [acceptsValue]
    | jnum n => simp [acceptsValue]
    | jdate t => simp [acceptsValue]
    | jfunc => simp [acceptsValue]
    | jarr xs => simp [acceptsValue]
    | jobj fs => simp [acceptsValue]

/-- Witness for C1 at the claim's own example `{type:'Number',
enum:['A','B']}`: the compiled rule is the case-folded membership rule,
`"a"` passes and `"c"` fails. -/
theorem c1_enum_replaces_witness :
    compileZodField "status" (.objForm (.strTok "Number") [.enumP ["A", "B"]])
        ⟨[], ⟨[], []⟩, [], [], false, []⟩ =
      .ok (.strR [.toLowerC, .refineLowerMem ["a", "b"]]) ∧
    acceptsValue (.strR [.toLowerC, .refineLowerMem ["a", "b"]]) (.jstr "a") = true ∧
    acceptsValue (.strR [.toLowerC, .refineLowerMem ["a", "b"]]) (.jstr "c") = false := by
  have hbase : zodBaseFor "status" (.strTok "Number") [FProp.enumP ["A", "B"]]
      ⟨[], ⟨[], []⟩, [], [], false, []⟩ = .ok (.numR []) := by
    simp [zodBaseFor, lowerOfTok, zodStrTypeBase,
      show jsToLower "Number" = "number" from by decide]
  have hmap : (["A", "B"].map jsToLower) = ["a", "b"] := by decide
  have h1 := c1_enum_replaces "status" (.strTok "Number") [] ["A", "B"]
    ⟨[], ⟨[], []⟩, [], [], false, []⟩ (.numR []) (.jstr "a")
    (by decide) (by decide) rfl (by simpa using hbase)
  have h2 := c1_enum_replaces "status" (.strTok "Number") [] ["A", "B"]
    ⟨[], ⟨[], []⟩, [], [], false, []⟩ (.numR []) (.jstr "c")
    (by decide) (by decide) rfl (by simpa using hbase)
  refine ⟨by rw [← hmap]; simpa using h1.1, ?_, ?_⟩
  · rw [← hmap]
    exact h1.2.mpr ⟨"a", rfl, by decide⟩
  · rw [← hmap]
    rw [Bool.eq_false_iff]
    intro hc
    obtain ⟨s, hs, hm⟩ := h2.2.mp hc
    cases hs
    revert hm
    decide

/-- Claim C5: when the rule built so far is string-typed and the FieldSpec
carries a `ref` modifier, the validation compiler re-applies the ObjectId
constraint: the field's rule becomes exactly the 24-hex-character string
rule, regardless of the declared type.  (Stated with `ref` as the last
modifier and for fields outside the later password/default steps, which
could wrap the replaced rule further.) -/
theorem c5_ref_objectid (name : String) (ty : TypeTok) (pre : List FProp)
    (rname : String) (opts : ROpts) (b : ZodRule) (v : JSValue)
    (hbase : zodBaseFor name ty (pre ++ [.refP rname]) opts = .ok b)
    (hstr : isStringRule (pre.foldl zodApplyProp b) = true)
    (hnp : containsPassword name = false)
    (hnd : lookupDefault pre = none) :
    compileZodField name (.objForm ty (pre ++ [.refP rname])) opts = .ok objectIdRule ∧
    (acceptsValue objectIdRule v = true ↔
      ∃ s, v = .jstr s ∧ s.data.length = 24 ∧ s.data.all isHexChar = true) := by
  constructor
  · rw [compileZodField_objForm, hbase]
    have hfold : (pre ++ [FProp.refP rname]).foldl zodApplyProp b = objectIdRule := by
      rw [List.foldl_append]
      simp [zodApplyProp, hstr]
    have hdef : lookupDefault (pre ++ [FProp.refP rname]) = none := by
      rw [lookupDefault_append _ _ hnd]
      rfl
    simp [Except.map, hfold, zodPasswordStep, hnp, zodDefaultStep, zodDefaultDefined, hdef]
  · cases v with
    | jstr s =>
      have hlen : s.length = s.data.length := rfl
      simp only [objectIdRule, acceptsValue, strChecksRun, hex24PatTest,
        patTest, Bool.and_true, Bool.and_eq_true, decide_eq_true_eq, hlen]
      constructor
      · rintro ⟨h24, hhex, _⟩
        exact ⟨s, rfl, h24, hhex⟩
      · rintro ⟨s', hs, h24, hhex⟩
        cases hs
        exact ⟨h24, hhex, h24⟩
    | jnull => simp [acceptsValue, objectIdRule]
    | jundefined => simp [acceptsValue, objectIdRule]
    | jbool b' => simp [acceptsValue, objectIdRule]
    | jnum n => simp [acceptsValue, objectIdRule]
    | jdate t => simp [acceptsValue, objectIdRule]
    | jfunc => simp [acceptsValue, objectIdRule]
    | jarr xs => simp [acceptsValue, objectIdRule]
    | jobj fs => simp [acceptsValue, objectIdRule]

/-- Witness for C5: a plain String field with `ref` compiles to the
ObjectId rule; a 24-hex string passes, `"abc"` fails. -/
theorem c5_ref_objectid_witness :
    compileZodField "author" (.objForm .ctorString [.refP "User"])
        ⟨[], ⟨[], []⟩, [], [], false, []⟩ = .ok objectIdRule ∧
    acceptsValue objectIdRule (.jstr "0123456789abcdef01234567") = true ∧
    acceptsValue objectIdRule (.jstr "abc") = false := by
  have hbase : zodBaseFor "author" TypeTok.ctorString [FProp.refP "User"]
      ⟨[], ⟨[], []⟩, [], [], false, []⟩ = .ok (.strR []) := by
    simp [zodBaseFor]
  have h1 := c5_ref_objectid "author" .ctorString [] "User"
    ⟨[], ⟨[], []⟩, [], [], false, []⟩ (.strR []) (.jstr "0123456789abcdef01234567")
    (by simpa using hbase) rfl (by decide) rfl
  have h2 := c5_ref_objectid "author" .ctorString [] "User"
    ⟨[], ⟨[], []⟩, [], [], false, []⟩ (.strR []) (.jstr "abc")
    (by simpa using hbase) rfl (by decide) rfl
  refine ⟨h1.1, ?_, ?_⟩
  · exact h1.2.mpr ⟨"0123456789abcdef01234567", rfl, by decide, by decide⟩
  · rw [Bool.eq_false_iff]
    intro hc
    obtain ⟨s, hs, h24, _⟩ := h2.2.mp hc
    cases hs
    revert h24
    decide

/-- `zodValidator.optional()` was the last combinator applied. -/
def isOptionalRule : ZodRule → Bool
  | .optR _ => true
  | _ => false

theorem isOptionalRule_appendStrCheck (r : ZodRule) (c : StrCheck) :
    isOptionalRule (appendStrCheck r c) = isOptionalRule r := by
  cases r <;> rfl

theorem zodStrTypeBase_not_opt (name ts : String) (props : List FProp)
    (opts : ROpts) (b : ZodRule)
    (h : zodStrTypeBase name ts props opts = .ok b) :
    isOptionalRule b = false := by
  unfold zodStrTypeBase at h
  split at h <;>
    first
    | (injection h with h2; subst h2; rfl)
    | (split at h <;>
        first
        | (injection h with h2; subst h2; rfl)
        | (rename_i d hd
           cases hz : createZodSchema d opts <;> rw [hz] at h <;>
             simp only [Except.map] at h
           · exact Except.noConfusion h
           · injection h with h2
             subst h2
             rfl))
    | exact Except.noConfusion h

theorem zodBaseFor_not_opt (name : String) (ty : TypeTok) (props : List FProp)
    (opts : ROpts) (b : ZodRule)
    (h : zodBaseFor name ty props opts = .ok b) :
    isOptionalRule b = false := by
  cases ty <;> simp only [zodBaseFor] at h <;>
    first
    | (injection h with h2; subst h2; rfl)
    | (exact zodStrTypeBase_not_opt _ _ _ _ _ h)
    | (split at h <;> (injection h with h2; subst h2; rfl))

theorem zodApplyProp_not_opt (r : ZodRule) (p : FProp)
    (hp : p ≠ FProp.requiredP false) (h : isOptionalRule r = false) :
    isOptionalRule (zodApplyProp r p) = false := by
  cases p <;> simp only [zodApplyProp] <;> (repeat' split) <;>
    first
    | exact h
    | rfl
    | exact (isOptionalRule_appendStrCheck r _).trans h
    | simp_all [isOptionalRule, isOptionalRule_appendStrCheck]
    | (cases r <;> simp_all [appendStrCheck, isOptionalRule])

theorem foldl_not_opt (l : List FProp) (b : ZodRule)
    (hl : ∀ p ∈ l, p ≠ FProp.requiredP false) (hb : isOptionalRule b = false) :
    isOptionalRule (l.foldl zodApplyProp b) = false := by
  induction l generalizing b with
  | nil => exact hb
  | cons p rest ih =>
    simp only [List.foldl_cons]
    exact ih _ (fun q hq => hl q (List.mem_cons_of_mem p hq))
      (zodApplyProp_not_opt b p (hl p (List.mem_cons_self p rest)) hb)

theorem required_true_no_false (l : List FProp)
    (hnd : (l.map propKey).Nodup) (h : lookupRequired l = some true) :
    ∀ p ∈ l, p ≠ FProp.requiredP false := by
  induction l with
  | nil => intro p hp; simp at hp
  | cons q rest ih =>
    simp only [List.map_cons, List.nodup_cons] at hnd
    intro p hp
    rcases List.mem_cons.mp hp with hhead | htail
    · subst hhead
      cases p <;> simp only [lookupRequired] at h <;>
        first
        | (injection h with h2; subst h2; simp)
        | simp
    · cases q <;> simp only [lookupRequired] at h
      case requiredP b =>
        intro hcontra
        subst hcontra
        exact hnd.1 (by simpa [propKey] using List.mem_map_of_mem propKey htail)
      all_goals exact ih hnd.2 h p htail

theorem isOptionalRule_passwordStep (name : String) (props : List FProp)
    (r : ZodRule) :
    isOptionalRule (zodPasswordStep name props r) = isOptionalRule r := by
  unfold zodPasswordStep
  split
  · exact isOptionalRule_appendStrCheck r _
  · rfl

/-- Claim C8: a FieldSpec whose `default` is a defined value and whose
`required` is not explicitly `true` compiles to an optional rule; with
`required: true` the default does not make the rule optional. -/
theorem c8_default_optional (name : String) (ty : TypeTok) (props : List FProp)
    (opts : ROpts) (r : ZodRule) (dv : JSValue)
    (hr : compileZodField name (.objForm ty props) opts = .ok r) :
    (lookupDefault props = some dv → dv ≠ .jundefined →
      lookupRequired props ≠ some true → isOptionalRule r = true) ∧
    (propsKeysNodup props → lookupRequired props = some true →
      isOptionalRule r = false) := by
  rw [compileZodField_objForm] at hr
  cases hbase : zodBaseFor name ty props opts with
  | error e =>
    rw [hbase] at hr
    exact Except.noConfusion hr
  | ok b =>
    rw [hbase] at hr
    simp only [Except.map] at hr
    injection hr with hr
    constructor
    · intro hd hdv hreq
      have hdef : zodDefaultDefined props = true := by
        rw [zodDefaultDefined, hd]
        cases dv <;> simp_all
      have hrt : zodRequiredNotTrue props = true := by
        rw [zodRequiredNotTrue]
        cases hlr : lookupRequired props with
        | none => rfl
        | some bb => cases bb <;> simp_all
      rw [← hr]
      simp only [zodDefaultStep, hdef, hrt, Bool.and_self, if_true]
      rfl
    · intro hnd hreq
      have hrt : zodRequiredNotTrue props = false := by
        rw [zodRequiredNotTrue, hreq]
      rw [← hr]
      simp only [zodDefaultStep, hrt, Bool.and_false]
      rw [if_neg (by simp), isOptionalRule_passwordStep]
      exact foldl_not_opt props b (required_true_no_false props hnd hreq)
        (zodBaseFor_not_opt name ty props opts b hbase)

/-- Witness for C8: `{type:'String', default:'user'}` compiles to an
optional rule; `{type:'String', required:true, default:'user'}` does not. -/
theorem c8_default_optional_witness :
    compileZodField "role" (.objForm .ctorString [.defaultP (.jstr "user")])
        ⟨[], ⟨[], []⟩, [], [], false, []⟩ =
      .ok (.optR (.withDefault (.strR []) (.jstr "user"))) ∧
    isOptionalRule (.optR (.withDefault (.strR []) (.jstr "user"))) = true ∧
    compileZodField "role"
        (.objForm .ctorString [.requiredP true, .defaultP (.jstr "user")])
        ⟨[], ⟨[], []⟩, [], [], false, []⟩ =
      .ok (.withDefault (.strR []) (.jstr "user")) ∧
    isOptionalRule (.withDefault (.strR []) (.jstr "user")) = false := by
  have e1 : compileZodField "role" (.objForm .ctorString [.defaultP (.jstr "user")])
      ⟨[], ⟨[], []⟩, [], [], false, []⟩ =
      .ok (.optR (.withDefault (.strR []) (.jstr "user"))) := by
    rw [compileZodField_objForm]
    simp [zodBaseFor, Except.map, zodApplyProp, zodPasswordStep, zodDefaultStep,
      zodDefaultDefined, zodRequiredNotTrue,
      lookupRegex, lookupDefault, lookupRequired, isStringRule,
      show containsPassword "role" = false from by decide]
  have e2 : compileZodField "role"
      (.objForm .ctorString [.requiredP true, .defaultP (.jstr "user")])
      ⟨[], ⟨[], []⟩, [], [], false, []⟩ =
      .ok (.withDefault (.strR []) (.jstr "user")) := by
    rw [compileZodField_objForm]
    simp [zodBaseFor, Except.map, zodApplyProp, zodPasswordStep, zodDefaultStep,
      zodDefaultDefined, zodRequiredNotTrue,
      lookupRegex, lookupDefault, lookupRequired, isStringRule,
      show containsPassword "role" = false from by decide]
  refine ⟨e1, ?_, e2, ?_⟩
  · exact (c8_default_optional "role" .ctorString [.defaultP (.jstr "user")]
      ⟨[], ⟨[], []⟩, [], [], false, []⟩ _ (.jstr "user") e1).1 rfl
      (by simp) (by simp [lookupRequired])
  · exact (c8_default_optional "role" .ctorString
      [.requiredP true, .defaultP (.jstr "user")]
      ⟨[], ⟨[], []⟩, [], [], false, []⟩ _ (.jstr "user") e2).2 (by decide) rfl

/-- The compiled rule carries the synthesized strong-password pattern
(looking through the `optional`/`default` wrappers the later steps add). -/
def includesPasswordPattern : ZodRule → Bool
  | .strR checks => checks.contains (.regexCheck .passwordDefault)
  | .optR r => includesPasswordPattern r
  | .withDefault r _ => includesPasswordPattern r
  | _ => false

/-- No modifier of the list carries the password pattern itself (rules out
a caller supplying the very regex the heuristic would synthesize). -/
def propAvoidsPwPat : FProp → Bool
  | .regexP pv | .matchP pv =>
      (match patOfVal pv with
       | .passwordDefault => false
       | _ => true)
  | _ => true

theorem includesPasswordPattern_appendStrCheck (r : ZodRule) (c : StrCheck)
    (hc : c ≠ .regexCheck .passwordDefault) (h : includesPasswordPattern r = false) :
    includesPasswordPattern (appendStrCheck r c) = false := by
  cases r <;> simp_all [appendStrCheck, includesPasswordPattern] <;>
    exact fun hh => hc hh.symm

theorem pw_neq_of_avoid (pv : PatVal)
    (hp : propAvoidsPwPat (FProp.regexP pv) = true) :
    StrCheck.regexCheck (patOfVal pv) ≠ .regexCheck .passwordDefault := by
  intro hc
  injection hc with hc2
  simp only [propAvoidsPwPat] at hp
  rw [hc2] at hp
  simp at hp

theorem zodStrTypeBase_no_pw (name ts : String) (props : List FProp)
    (opts : ROpts) (b : ZodRule)
    (h : zodStrTypeBase name ts props opts = .ok b) :
    includesPasswordPattern b = false := by
  unfold zodStrTypeBase at h
  split at h <;>
    first
    | (injection h with h2; subst h2; rfl)
    | (split at h <;>
        first
        | (injection h with h2; subst h2; rfl)
        | (rename_i d hd
           cases hz : createZodSchema d opts <;> rw [hz] at h <;>
             simp only [Except.map] at h
           · exact Except.noConfusion h
           · injection h with h2
             subst h2
             rfl))
    | exact Except.noConfusion h

theorem zodBaseFor_no_pw (name : String) (ty : TypeTok) (props : List FProp)
    (opts : ROpts) (b : ZodRule)
    (h : zodBaseFor name ty props opts = .ok b) :
    includesPasswordPattern b = false := by
  cases ty <;> simp only [zodBaseFor] at h <;>
    first
    | (injection h with h2; subst h2; rfl)
    | (exact zodStrTypeBase_no_pw _ _ _ _ _ h)
    | (split at h <;> (injection h with h2; subst h2; rfl))

theorem zodApplyProp_no_pw (r : ZodRule) (p : FProp)
    (hp : propAvoidsPwPat p = true) (h : includesPasswordPattern r = false) :
    includesPasswordPattern (zodApplyProp r p) = false := by
  cases p <;> simp only [zodApplyProp] <;> (repeat' split) <;>
    first
    | exact h
    | rfl
    | (apply includesPasswordPattern_appendStrCheck _ _ _ h
       simp
       done)
    | (exact includesPasswordPattern_appendStrCheck _ _ (pw_neq_of_avoid _ hp) h)
    | (cases r <;> simp_all [includesPasswordPattern] <;> done)

theorem foldl_no_pw (l : List FProp) (b : ZodRule)
    (hl : ∀ p ∈ l, propAvoidsPwPat p = true)
    (hb : includesPasswordPattern b = false) :
    includesPasswordPattern (l.foldl zodApplyProp b) = false := by
  induction l generalizing b with
  | nil => exact hb
  | cons p rest ih =>
    simp only [List.foldl_cons]
    exact ih _ (fun q hq => hl q (List.mem_cons_of_mem p hq))
      (zodApplyProp_no_pw b p (hl p (List.mem_cons_self p rest)) hb)

theorem zodDefaultStep_cases (props : List FProp) (r : ZodRule) :
    zodDefaultStep props r = .optR r ∨ zodDefaultStep props r = r := by
  unfold zodDefaultStep
  split
  · exact Or.inl rfl
  · exact Or.inr rfl

theorem includesPasswordPattern_defaultStep (props : List FProp) (r : ZodRule) :
    includesPasswordPattern (zodDefaultStep props r) = includesPasswordPattern r := by
  rcases zodDefaultStep_cases props r with h | h <;> rw [h] <;> rfl

theorem contains_append_last (l : List StrCheck) (x : StrCheck) :
    (l ++ [x]).contains x = true := by
  induction l with
  | nil => simp
  | cons hd tl ih => simp_all

/-- Counterexample to claim C2: a password-named field that supplies an
explicit `match` pattern (and no `regex`) still receives the synthesized
strong-password pattern — the heuristic consults only the `regex` key, so
the claim's "no explicit `regex`/`match` modifier" firing condition is
wrong about `match`. -/
theorem c2_counterexample :
    compileZodField "password"
        (.objForm .ctorString [.matchP (.reP (.fromSource "x"))])
        ⟨[], ⟨[], []⟩, [], [], false, []⟩ =
      .ok (.strR [.regexCheck (.fromSource "x"), .regexCheck .passwordDefault]) ∧
    includesPasswordPattern
      (.strR [.regexCheck (.fromSource "x"), .regexCheck .passwordDefault]) = true := by
  constructor
  · rw [compileZodField_objForm]
    simp [zodBaseFor, Except.map, zodApplyProp, isStringRule, appendStrCheck,
      zodPasswordStep, lookupRegex, zodDefaultStep, zodDefaultDefined,
      lookupDefault, patOfVal,
      show containsPassword "password" = true from by decide]
  · decide

/-- Claim C2 as amended: the password heuristic fires iff the field name
contains "password" (case-insensitively), the FieldSpec supplies no
explicit `regex` modifier — a `match` modifier does not suppress it — and
the rule after the modifier loop is string-typed; the condition never
consults `minlength`.  `{name:'password', minlength:8}` rejects `"weak"`
and accepts `"Str0ng!ab"`. -/
theorem c2_password_heuristic (name : String) (ty : TypeTok) (props : List FProp)
    (opts : ROpts) (b r : ZodRule)
    (hbase : zodBaseFor name ty props opts = .ok b)
    (hr : compileZodField name (.objForm ty props) opts = .ok r) :
    (containsPassword name = true → lookupRegex props = none →
      isStringRule (props.foldl zodApplyProp b) = true →
      includesPasswordPattern r = true) ∧
    ((containsPassword name = false ∨ (lookupRegex props).isSome = true) →
      (∀ p ∈ props, propAvoidsPwPat p = true) →
      includesPasswordPattern r = false) ∧
    compileZodField "password" (.objForm .ctorString [.minlengthP 8])
        ⟨[], ⟨[], []⟩, [], [], false, []⟩ =
      .ok (.strR [.minLen 8, .regexCheck .passwordDefault]) ∧
    acceptsValue (.strR [.minLen 8, .regexCheck .passwordDefault])
      (.jstr "weak") = false ∧
    acceptsValue (.strR [.minLen 8, .regexCheck .passwordDefault])
      (.jstr "Str0ng!ab") = true := by
  rw [compileZodField_objForm, hbase] at hr
  simp only [Except.map] at hr
  injection hr with hr
  refine ⟨?_, ?_, ?_, ?_, ?_⟩
  · intro hcp hlr hstr
    rw [← hr, includesPasswordPattern_defaultStep]
    cases hfold : props.foldl zodApplyProp b <;> rw [hfold] at hstr <;>
      simp only [isStringRule] at hstr <;>
      first
      | exact absurd hstr (by decide)
      | skip
    case strR cks =>
      simp only [zodPasswordStep, hcp, hlr, hfold, Option.isNone_none,
        isStringRule, Bool.and_self, if_true, appendStrCheck,
        includesPasswordPattern]
      exact contains_append_last cks _
  · intro hcond havoid
    have hfold_no : includesPasswordPattern (props.foldl zodApplyProp b) = false :=
      foldl_no_pw props b havoid (zodBaseFor_no_pw name ty props opts b hbase)
    rw [← hr, includesPasswordPattern_defaultStep]
    rcases hcond with hcp | hsome
    · simp only [zodPasswordStep]
      rw [if_neg]
      · exact hfold_no
      · simp [hcp]
    · obtain ⟨pv, hpv⟩ := Option.isSome_iff_exists.mp hsome
      simp only [zodPasswordStep]
      rw [if_neg]
      · exact hfold_no
      · simp [hpv]
  · rw [compileZodField_objForm]
    simp [zodBaseFor, Except.map, zodApplyProp, isStringRule, appendStrCheck,
      zodPasswordStep, lookupRegex, zodDefaultStep, zodDefaultDefined,
      lookupDefault,
      show containsPassword "password" = true from by decide]
  · simp only [acceptsValue]
    decide
  · simp only [acceptsValue]
    decide

/-- Witness for the amended C2 at the claim's example: the heuristic fires
with only `minlength` present, rejecting `"weak"` and accepting
`"Str0ng!ab"`. -/
theorem c2_password_heuristic_witness :
    includesPasswordPattern (.strR [.minLen 8, .regexCheck .passwordDefault]) = true ∧
    acceptsValue (.strR [.minLen 8, .regexCheck .passwordDefault])
      (.jstr "weak") = false ∧
    acceptsValue (.strR [.minLen 8, .regexCheck .passwordDefault])
      (.jstr "Str0ng!ab") = true := by
  have hbase : zodBaseFor "password" TypeTok.ctorString [FProp.minlengthP 8]
      ⟨[], ⟨[], []⟩, [], [], false, []⟩ = .ok (.strR []) := by
    simp [zodBaseFor]
  have hcomp : compileZodField "password" (.objForm .ctorString [.minlengthP 8])
      ⟨[], ⟨[], []⟩, [], [], false, []⟩ =
      .ok (.strR [.minLen 8, .regexCheck .passwordDefault]) := by
    rw [compileZodField_objForm]
    simp [zodBaseFor, Except.map, zodApplyProp, isStringRule, appendStrCheck,
      zodPasswordStep, lookupRegex, zodDefaultStep, zodDefaultDefined,
      lookupDefault,
      show containsPassword "password" = true from by decide]
  have h := c2_password_heuristic "password" .ctorString [.minlengthP 8]
    ⟨[], ⟨[], []⟩, [], [], false, []⟩ (.strR [])
    (.strR [.minLen 8, .regexCheck .passwordDefault]) hbase hcomp
  exact ⟨h.1 (by decide) rfl (by decide), h.2.2.2.1, h.2.2.2.2⟩

theorem cacheGet_set_self (m : List (String × CompiledPair)) (k : String)
    (v : CompiledPair) : cacheGet (cacheSet m k v) k = some v := by
  induction m with
  | nil => simp [cacheSet, cacheGet]
  | cons kv rest ih =>
    obtain ⟨k0, v0⟩ := kv
    by_cases h : k0 = k <;> simp [cacheSet, cacheGet, h, ih]

/-- Claim C3: with caching enabled, a second call with structurally
identical `(definition, options)` returns the very pair object the first
call produced (same allocation tag) and leaves the state unchanged; with
`enableCache: false` the call stores nothing in the cache and its result
never depends on the cache contents. -/
theorem c3_cache_determinism (st : CacheState) (defn : List (String × FieldEntry))
    (ro : ROpts) :
    (∀ p st1, createSchemas st defn ⟨true, ro⟩ = .ok (p, st1) →
      createSchemas st1 defn ⟨true, ro⟩ = .ok (p, st1)) ∧
    (∀ p st1, createSchemas st defn ⟨false, ro⟩ = .ok (p, st1) →
      st1.cache = st.cache) ∧
    (∀ c' : List (String × CompiledPair),
      Except.map Prod.fst (createSchemas st defn ⟨false, ro⟩) =
      Except.map Prod.fst (createSchemas ⟨c', st.nextTag⟩ defn ⟨false, ro⟩)) := by
  refine ⟨?_, ?_, ?_⟩
  · intro p st1 h1
    simp only [createSchemas, if_true] at h1 ⊢
    cases hget : cacheGet st.cache (generateCacheKey defn ro) with
    | some pair =>
      rw [hget] at h1
      injection h1 with h1
      injection h1 with hp hst
      subst hp
      subst hst
      rw [hget]
    | none =>
      rw [hget] at h1
      cases hz : createZodSchema defn ro with
      | error e =>
        rw [hz] at h1
        simp [Bind.bind, Except.bind] at h1
      | ok z =>
        rw [hz] at h1
        simp only [Bind.bind, Except.bind] at h1
        injection h1 with h1
        injection h1 with hp hst
        subst hp
        subst hst
        rw [cacheGet_set_self]
  · intro p st1 h1
    simp only [createSchemas, Bool.false_eq_true, if_false] at h1
    cases hz : createZodSchema defn ro with
    | error e =>
      rw [hz] at h1
      simp [Bind.bind, Except.bind] at h1
    | ok z =>
      rw [hz] at h1
      simp only [Bind.bind, Except.bind] at h1
      injection h1 with h1
      injection h1 with hp hst
      subst hst
      rfl
  · intro c'
    simp only [createSchemas, Bool.false_eq_true, if_false]
    cases hz : createZodSchema defn ro with
    | error e => rfl
    | ok z => rfl

/-- An options bag with every option at its default. -/
def roEmpty : ROpts := ⟨[], ⟨[], []⟩, [], [], false, []⟩

/-- The pair the first compilation of the empty definition allocates. -/
def pairEmpty : CompiledPair := ⟨createMongooseSchema [] roEmpty, [], 0⟩

/-- The cache key of the empty definition under default options. -/
def keyEmpty : String := generateCacheKey [] roEmpty

/-- Witness for C3: compiling the empty definition twice with caching
returns the stored pair by reference (same allocation tag) and the same
state; with `enableCache: false` the cache stays empty. -/
theorem c3_cache_determinism_witness :
    createSchemas ⟨[], 0⟩ [] ⟨true, roEmpty⟩ =
      .ok (pairEmpty, ⟨[(keyEmpty, pairEmpty)], 1⟩) ∧
    createSchemas ⟨[(keyEmpty, pairEmpty)], 1⟩ [] ⟨true, roEmpty⟩ =
      .ok (pairEmpty, ⟨[(keyEmpty, pairEmpty)], 1⟩) ∧
    createSchemas ⟨[], 0⟩ [] ⟨false, roEmpty⟩ =
      .ok (⟨createMongooseSchema [] roEmpty, [], 0⟩, ⟨[], 1⟩) := by
  have h1 : createSchemas ⟨[], 0⟩ [] ⟨true, roEmpty⟩ =
      .ok (pairEmpty, ⟨[(keyEmpty, pairEmpty)], 1⟩) := by
    simp [createSchemas, createZodSchema, cacheGet, cacheSet, keyEmpty,
      pairEmpty, Bind.bind, Except.bind]
  refine ⟨h1, (c3_cache_determinism ⟨[], 0⟩ [] roEmpty).1 _ _ h1, ?_⟩
  simp [createSchemas, createZodSchema, Bind.bind, Except.bind, pairEmpty]
